import Mathlib

/-!
Shallow embedding of `tools/extract-families-portuguese.py`.

The script scans PDF page texts with the two regular expressions

  `Ordem\s+([A-Za-z]+)\s+([a-záéíóúãõç]+)`
  `Família\s+([A-Za-z]+)\s+([a-záéíóúãõç]+)`

collects `group(1) → group(2)` into two insertion-ordered dictionaries
(Python `dict`, last assignment wins), writes both to a UTF-8 text file
and echoes them to the console.

Strings are embedded as `List Char`.  The three character classes of the
patterns are embedded by code point.  Since the sub-patterns
`\s+`, `[A-Za-z]+`, `\s+`, `[a-záéíóúãõç]+` have pairwise disjoint
character classes at each boundary (whitespace vs. letters), Python's
leftmost, greedy, backtracking match of this pattern coincides with
maximal munch at each stage; `matchAt` below implements that, and
`finditer` implements `re.finditer`: scan left to right, on a match emit
the two capture groups and resume after the match, otherwise advance one
character.
-/

namespace FlickrExtract

/-- Python `\s` for `str` patterns: the Unicode whitespace code points. -/
def isPySpace (c : Char) : Bool :=
  let n := c.toNat
  (0x09 ≤ n && n ≤ 0x0D) || n == 0x20 || (0x1C ≤ n && n ≤ 0x1F) ||
  n == 0x85 || n == 0xA0 || n == 0x1680 || (0x2000 ≤ n && n ≤ 0x200A) ||
  n == 0x2028 || n == 0x2029 || n == 0x202F || n == 0x205F || n == 0x3000

/-- The class `[A-Za-z]` of the first capture group (ASCII letters). -/
def isLatin (c : Char) : Bool :=
  let n := c.toNat
  (0x41 ≤ n && n ≤ 0x5A) || (0x61 ≤ n && n ≤ 0x7A)

/-- The class `[a-záéíóúãõç]` of the second capture group: ASCII lowercase
plus á é í ó ú ã õ ç (U+00E1, U+00E9, U+00ED, U+00F3, U+00FA, U+00E3,
U+00F5, U+00E7). -/
def isPort (c : Char) : Bool :=
  let n := c.toNat
  (0x61 ≤ n && n ≤ 0x7A) || n == 0xE1 || n == 0xE9 || n == 0xED ||
  n == 0xF3 || n == 0xFA || n == 0xE3 || n == 0xF5 || n == 0xE7

/-- The literal keyword of `ordem_pattern`. -/
def ordemKw : List Char := "Ordem".data

/-- The literal keyword of `familia_pattern`. -/
def familiaKw : List Char := "Família".data

/-- Match the literal `kw` at the front of `s`, returning the remainder. -/
def chopKw : List Char → List Char → Option (List Char)
  | [], s => some s
  | _ :: _, [] => none
  | k :: ks, c :: cs => if k = c then chopKw ks cs else none

/-- Greedily match one-or-more characters of class `p` at the front of
`s` (a `p+` regex atom), returning the matched run and the remainder. -/
def grab1 (p : Char → Bool) (s : List Char) :
    Option (List Char × List Char) :=
  match s with
  | [] => none
  | c :: cs =>
    if p c then some (c :: cs.takeWhile p, cs.dropWhile p) else none

/-- Match `kw` `\s+` `([A-Za-z]+)` `\s+` `([a-záéíóúãõç]+)` at the start
of `s`; on success return (group 1, group 2, remainder of `s`). -/
def matchAt (kw s : List Char) :
    Option (List Char × List Char × List Char) :=
  match chopKw kw s with
  | none => none
  | some s1 =>
    match grab1 isPySpace s1 with
    | none => none
    | some (_, s2) =>
      match grab1 isLatin s2 with
      | none => none
      | some (g1, s3) =>
        match grab1 isPySpace s3 with
        | none => none
        | some (_, s4) =>
          match grab1 isPort s4 with
          | none => none
          | some (g2, rest) => some (g1, g2, rest)

/-- Driver for `re.finditer`: try a match at every position, left to right,
resuming after each match; every successful match consumes at least one
character, so `s.length` steps of fuel always suffice. -/
def finditerAux (kw : List Char) : Nat → List Char →
    List (List Char × List Char)
  | 0, _ => []
  | _ + 1, [] => []
  | fuel + 1, c :: cs =>
    match matchAt kw (c :: cs) with
    | some (g1, g2, rest) => (g1, g2) :: finditerAux kw fuel rest
    | none => finditerAux kw fuel cs

/-- All (group 1, group 2) capture pairs of the pattern over `s`, in
match order. -/
def finditer (kw s : List Char) : List (List Char × List Char) :=
  finditerAux kw s.length s

/-- Python `d[k] = v` on an insertion-ordered dictionary: update in place
when the key is present, append otherwise. -/
def dictInsert (m : List (List Char × List Char)) (k v : List Char) :
    List (List Char × List Char) :=
  match m with
  | [] => [(k, v)]
  | (k', v') :: rest =>
    if k' = k then (k, v) :: rest else (k', v') :: dictInsert rest k v

/-- Python `d.get(k)` / `d[k]` lookup. -/
def dictLookup (m : List (List Char × List Char)) (k : List Char) :
    Option (List Char) :=
  match m with
  | [] => none
  | (k', v) :: rest => if k' = k then some v else dictLookup rest k

/-- One page's inner loop: `for match in pattern.finditer(text): d[g1] = g2`,
starting from the accumulated dictionary `m`. -/
def insAll (m : List (List Char × List Char))
    (l : List (List Char × List Char)) : List (List Char × List Char) :=
  l.foldl (fun m p => dictInsert m p.1 p.2) m

/-- The page loop for one pattern: fold the per-page inner loop over all
page texts, starting from the empty dictionary. -/
def scanPages (kw : List Char) (pages : List (List Char)) :
    List (List Char × List Char) :=
  pages.foldl (fun m page => insAll m (finditer kw page)) []

/-- The `ordens` dictionary at the end of the page loop. -/
def ordensMap (pages : List (List Char)) : List (List Char × List Char) :=
  scanPages ordemKw pages

/-- The `familias` dictionary at the end of the page loop. -/
def familiasMap (pages : List (List Char)) : List (List Char × List Char) :=
  scanPages familiaKw pages

/-- All capture pairs of one pattern across the whole document, in
page-then-match order. -/
def allMatches (kw : List Char) (pages : List (List Char)) :
    List (List Char × List Char) :=
  pages.flatMap (finditer kw)

/-- The value of the last pair with key `k` in `l`, if any. -/
def lastVal (l : List (List Char × List Char)) (k : List Char) :
    Option (List Char) :=
  match l with
  | [] => none
  | (k', v) :: rest =>
    match lastVal rest k with
    | some w => some w
    | none => if k' = k then some v else none

/-- Left-biased choice on options: `a` if it is `some`, else `b`. -/
def orO (a b : Option (List Char)) : Option (List Char) :=
  match a with
  | some x => some x
  | none => b

/-- One rendered entry, `f"{k}: {v}"`, used both for the file lines and
for the console echo lines. -/
def fileLine (k v : List Char) : List Char := k ++ (": ".data) ++ v

/-- The content written to `families-e-ordens-em-portugues.txt` by the
output block (lines 55-62 of the script). -/
def renderOutput (ordens familias : List (List Char × List Char)) :
    List Char :=
  "Ordens encontradas:\n".data
    ++ (ordens.flatMap fun p => fileLine p.1 p.2 ++ ['\n'])
    ++ "\nFamílias encontradas:\n".data
    ++ (familias.flatMap fun p => fileLine p.1 p.2 ++ ['\n'])

/-- Newline-terminate and concatenate a list of lines. -/
def unlines (ls : List (List Char)) : List Char :=
  ls.flatMap fun l => l ++ ['\n']

/-- The head of `r`, when there is one, fails the class test `p`; used to
state maximality (greediness) of a `p+` run ending right before `r`. -/
def headFails (p : Char → Bool) (r : List Char) : Prop :=
  ∀ c cs, r = c :: cs → p c = false

/-- Declarative reading of one match of the pattern
`kw` `\s+` `([A-Za-z]+)` `\s+` `([a-záéíóúãõç]+)` starting at the first
character of `s`, with capture groups `g1`, `g2` and remainder `rest`:
the literal keyword, then a nonempty whitespace run, then a nonempty
ASCII-letter run (group 1), then a nonempty whitespace run, then a
nonempty run of the lowercase class (group 2), then `rest`.  The single
`headFails` clause expresses greediness of the final group; maximality
of the three earlier runs is automatic because adjacent classes are
disjoint (whitespace vs. letters). -/
def GreedyDecomp (kw s g1 g2 rest : List Char) : Prop :=
  ∃ w1 w2 : List Char,
    s = kw ++ w1 ++ g1 ++ w2 ++ g2 ++ rest ∧
    w1 ≠ [] ∧ (∀ c ∈ w1, isPySpace c = true) ∧
    g1 ≠ [] ∧ (∀ c ∈ g1, isLatin c = true) ∧
    w2 ≠ [] ∧ (∀ c ∈ w2, isPySpace c = true) ∧
    g2 ≠ [] ∧ (∀ c ∈ g2, isPort c = true) ∧
    headFails isPort rest

/-- Outcome of `fitz.open(pdf_path)`: a document (its extracted page
texts), `fitz.FileNotFoundError`, or any other exception with its
message. -/
inductive OpenResult where
  | ok (pages : List (List Char))
  | notFound
  | failed (msg : List Char)
deriving DecidableEq

/-- Observable result of one run: the process exit code, the arguments of
the `print` calls in order (each `print` appends its own newline), and
the final content of the output file (`none` when the write stage never
produced a complete file). -/
structure RunResult where
  exitCode : Nat
  stdout : List (List Char)
  written : Option (List Char)
deriving DecidableEq

/-- The usage message of the argument check (line 8). -/
def usageMsg : List Char := "Uso: ./processar_pdf.py <caminho_do_arquivo_pdf>".data

/-- The `fitz.FileNotFoundError` message (line 17), naming the path. -/
def notFoundMsg (path : List Char) : List Char :=
  "Erro: Arquivo não encontrado no caminho: ".data ++ path

/-- The generic open-failure message (line 20). -/
def openErrMsg (e : List Char) : List Char :=
  "Erro ao abrir o PDF: ".data ++ e

/-- The success message of the output write (line 63); the f-string
starts with a literal newline. -/
def savedMsg : List Char :=
  "\nResultados salvos em: families-e-ordens-em-portugues.txt".data

/-- The output-write failure message (line 65). -/
def writeFailMsg (e : List Char) : List Char :=
  "Erro ao escrever o arquivo de saída: ".data ++ e

/-- The console echo after the write block (lines 69-77): both
dictionaries in full, under their headers, then the completion message. -/
def echoLines (ordens familias : List (List Char × List Char)) :
    List (List Char) :=
  ["\nOrdens encontradas:".data]
    ++ ordens.map (fun p => fileLine p.1 p.2)
    ++ ["\nFamílias encontradas:".data]
    ++ familias.map (fun p => fileLine p.1 p.2)
    ++ ["\nProcessamento concluído.".data]

/-- The whole script as a function of its environment: `argv` (including
the program name at index 0), the outcome of `fitz.open`, whether the
output-file write succeeds, `writeErr` the exception message when it
fails, and `partialOut` the file state a failed write leaves behind.
Mirrors the script top to bottom: argument check (lines 7-9), document
open (lines 14-21), page scan (lines 32-48), output write (lines 54-65),
console echo (lines 69-77); falling off the end exits with code 0. -/
def runProgram (argv : List (List Char)) (openRes : OpenResult)
    (writeOk : Bool) (writeErr : List Char)
    (partialOut : Option (List Char)) : RunResult :=
  match argv with
  | [] => ⟨1, [usageMsg], none⟩
  | [_] => ⟨1, [usageMsg], none⟩
  | _ :: pdfPath :: _ =>
    match openRes with
    | .notFound => ⟨1, [notFoundMsg pdfPath], none⟩
    | .failed e => ⟨1, [openErrMsg e], none⟩
    | .ok pages =>
      let ordens := ordensMap pages
      let familias := familiasMap pages
      { exitCode := 0
        stdout :=
          (if writeOk then [savedMsg] else [writeFailMsg writeErr])
            ++ echoLines ordens familias
        written :=
          if writeOk then some (renderOutput ordens familias)
          else partialOut }

lemma isPySpace_iff (c : Char) : isPySpace c = true ↔
    (0x09 ≤ c.toNat ∧ c.toNat ≤ 0x0D) ∨ c.toNat = 0x20 ∨
    (0x1C ≤ c.toNat ∧ c.toNat ≤ 0x1F) ∨ c.toNat = 0x85 ∨ c.toNat = 0xA0 ∨
    c.toNat = 0x1680 ∨ (0x2000 ≤ c.toNat ∧ c.toNat ≤ 0x200A) ∨
    c.toNat = 0x2028 ∨ c.toNat = 0x2029 ∨ c.toNat = 0x202F ∨
    c.toNat = 0x205F ∨ c.toNat = 0x3000 := by
  simp [isPySpace]
  tauto

lemma isLatin_iff (c : Char) : isLatin c = true ↔
    (0x41 ≤ c.toNat ∧ c.toNat ≤ 0x5A) ∨ (0x61 ≤ c.toNat ∧ c.toNat ≤ 0x7A) := by
  simp [isLatin]

lemma isPort_iff (c : Char) : isPort c = true ↔
    (0x61 ≤ c.toNat ∧ c.toNat ≤ 0x7A) ∨ c.toNat = 0xE1 ∨ c.toNat = 0xE9 ∨
    c.toNat = 0xED ∨ c.toNat = 0xF3 ∨ c.toNat = 0xFA ∨ c.toNat = 0xE3 ∨
    c.toNat = 0xF5 ∨ c.toNat = 0xE7 := by
  simp [isPort]
  tauto

lemma latin_not_space {c : Char} (h : isLatin c = true) : isPySpace c = false := by
  cases hb : isPySpace c
  · rfl
  · exfalso
    have h1 := (isLatin_iff c).mp h
    have h2 := (isPySpace_iff c).mp hb
    omega

lemma space_not_latin {c : Char} (h : isPySpace c = true) : isLatin c = false := by
  cases hb : isLatin c
  · rfl
  · exfalso
    have h1 := (isPySpace_iff c).mp h
    have h2 := (isLatin_iff c).mp hb
    omega

lemma port_not_space {c : Char} (h : isPort c = true) : isPySpace c = false := by
  cases hb : isPySpace c
  · rfl
  · exfalso
    have h1 := (isPort_iff c).mp h
    have h2 := (isPySpace_iff c).mp hb
    omega

lemma chopKw_eq_some (kw : List Char) :
    ∀ s r : List Char, chopKw kw s = some r ↔ s = kw ++ r := by
  induction kw with
  | nil => intro s r; simp [chopKw]
  | cons k ks ih =>
    intro s r
    cases s with
    | nil => simp [chopKw]
    | cons c cs =>
      simp only [chopKw, List.cons_append, List.cons.injEq]
      by_cases hk : k = c
      · subst hk; simp [ih]
      · simp [hk]
        exact fun h _ => hk h.symm

lemma headFails_cons {p : Char → Bool} {a : Char} (ha : p a = false)
    (l : List Char) : headFails p (a :: l) := by
  intro c cs h
  injection h with h1 _
  subst h1
  exact ha

lemma headFails_dropWhile (p : Char → Bool) :
    ∀ l : List Char, headFails p (l.dropWhile p) := by
  intro l
  induction l with
  | nil => intro c cs h; simp [List.dropWhile] at h
  | cons a l ih =>
    cases hp : p a
    · intro c cs h
      rw [List.dropWhile_cons, hp] at h
      simp at h
      obtain ⟨h1, _⟩ := h
      subst h1
      exact hp
    · intro c cs h
      rw [List.dropWhile_cons, hp] at h
      simp at h
      exact ih c cs h

lemma takeWhile_all_append (p : Char → Bool) :
    ∀ t r : List Char, (∀ c ∈ t, p c = true) → headFails p r →
      (t ++ r).takeWhile p = t ∧ (t ++ r).dropWhile p = r := by
  intro t
  induction t with
  | nil =>
    intro r _ hr
    cases r with
    | nil => simp
    | cons c cs =>
      have := hr c cs rfl
      simp [List.takeWhile_cons, List.dropWhile_cons, this]
  | cons a t ih =>
    intro r hall hr
    have hpa : p a = true := hall a (by simp)
    have h2 := ih r (fun c hc => hall c (by simp [hc])) hr
    simp [List.takeWhile_cons, List.dropWhile_cons, hpa, h2.1, h2.2]

lemma grab1_eq_some (p : Char → Bool) (s t r : List Char) :
    grab1 p s = some (t, r) ↔
      t ≠ [] ∧ (∀ c ∈ t, p c = true) ∧ s = t ++ r ∧ headFails p r := by
  constructor
  · intro h
    cases s with
    | nil => simp [grab1] at h
    | cons c cs =>
      cases hp : p c
      · simp [grab1, hp] at h
      · simp only [grab1, hp, if_pos, Option.some.injEq, Prod.mk.injEq] at h
        obtain ⟨ht, hr⟩ := h
        subst ht
        subst hr
        refine ⟨by simp, ?_, ?_, headFails_dropWhile p cs⟩
        · intro x hx
          rcases List.mem_cons.mp hx with h1 | h1
          · subst h1; exact hp
          · exact List.mem_takeWhile_imp h1
        · simp [List.takeWhile_append_dropWhile]
  · rintro ⟨ht, hall, rfl, hr⟩
    cases t with
    | nil => exact absurd rfl ht
    | cons a t =>
      have hpa : p a = true := hall a (by simp)
      have h2 := takeWhile_all_append p t r (fun c hc => hall c (by simp [hc])) hr
      simp [grab1, hpa, h2.1, h2.2]

lemma matchAt_eq_some (kw s g1 g2 rest : List Char) :
    matchAt kw s = some (g1, g2, rest) ↔ GreedyDecomp kw s g1 g2 rest := by
  constructor
  · intro h
    cases hc : chopKw kw s with
    | none => simp [matchAt, hc] at h
    | some s1 =>
      cases h1 : grab1 isPySpace s1 with
      | none => simp [matchAt, hc, h1] at h
      | some pr1 =>
        obtain ⟨w1, s2⟩ := pr1
        cases h2 : grab1 isLatin s2 with
        | none => simp [matchAt, hc, h1, h2] at h
        | some pr2 =>
          obtain ⟨g1x, s3⟩ := pr2
          cases h3 : grab1 isPySpace s3 with
          | none => simp [matchAt, hc, h1, h2, h3] at h
          | some pr3 =>
            obtain ⟨w2, s4⟩ := pr3
            cases h4 : grab1 isPort s4 with
            | none => simp [matchAt, hc, h1, h2, h3, h4] at h
            | some pr4 =>
              obtain ⟨g2x, restx⟩ := pr4
              simp only [matchAt, hc, h1, h2, h3, h4, Option.some.injEq,
                Prod.mk.injEq] at h
              obtain ⟨ha, hb, hd⟩ := h
              subst ha
              subst hb
              subst hd
              have Hc := (chopKw_eq_some kw s s1).mp hc
              have H1 := (grab1_eq_some _ _ _ _).mp h1
              have H2 := (grab1_eq_some _ _ _ _).mp h2
              have H3 := (grab1_eq_some _ _ _ _).mp h3
              have H4 := (grab1_eq_some _ _ _ _).mp h4
              refine ⟨w1, w2, ?_, H1.1, H1.2.1, H2.1, H2.2.1, H3.1, H3.2.1,
                H4.1, H4.2.1, H4.2.2.2⟩
              rw [Hc, H1.2.2.1, H2.2.2.1, H3.2.2.1, H4.2.2.1]
              simp [List.append_assoc]
  · rintro ⟨w1, w2, hs, hw1ne, hw1, hg1ne, hg1, hw2ne, hw2, hg2ne, hg2, hrest⟩
    obtain ⟨a1, g1t, rfl⟩ : ∃ a t, g1 = a :: t := by
      cases g1 with
      | nil => exact absurd rfl hg1ne
      | cons a t => exact ⟨a, t, rfl⟩
    obtain ⟨b2, w2t, rfl⟩ : ∃ a t, w2 = a :: t := by
      cases w2 with
      | nil => exact absurd rfl hw2ne
      | cons a t => exact ⟨a, t, rfl⟩
    obtain ⟨a2, g2t, rfl⟩ : ∃ a t, g2 = a :: t := by
      cases g2 with
      | nil => exact absurd rfl hg2ne
      | cons a t => exact ⟨a, t, rfl⟩
    have hc : chopKw kw s =
        some (w1 ++ ((a1 :: g1t) ++ ((b2 :: w2t) ++ ((a2 :: g2t) ++ rest)))) := by
      apply (chopKw_eq_some _ _ _).mpr
      rw [hs]
      simp [List.append_assoc]
    have h1 : grab1 isPySpace
        (w1 ++ ((a1 :: g1t) ++ ((b2 :: w2t) ++ ((a2 :: g2t) ++ rest)))) =
        some (w1, (a1 :: g1t) ++ ((b2 :: w2t) ++ ((a2 :: g2t) ++ rest))) := by
      apply (grab1_eq_some _ _ _ _).mpr
      refine ⟨hw1ne, hw1, rfl, ?_⟩
      rw [List.cons_append]
      exact headFails_cons (latin_not_space (hg1 a1 (by simp))) _
    have h2 : grab1 isLatin
        ((a1 :: g1t) ++ ((b2 :: w2t) ++ ((a2 :: g2t) ++ rest))) =
        some (a1 :: g1t, (b2 :: w2t) ++ ((a2 :: g2t) ++ rest)) := by
      apply (grab1_eq_some _ _ _ _).mpr
      refine ⟨by simp, hg1, rfl, ?_⟩
      rw [List.cons_append]
      exact headFails_cons (space_not_latin (hw2 b2 (by simp))) _
    have h3 : grab1 isPySpace
        ((b2 :: w2t) ++ ((a2 :: g2t) ++ rest)) =
        some (b2 :: w2t, (a2 :: g2t) ++ rest) := by
      apply (grab1_eq_some _ _ _ _).mpr
      refine ⟨by simp, hw2, rfl, ?_⟩
      rw [List.cons_append]
      exact headFails_cons (port_not_space (hg2 a2 (by simp))) _
    have h4 : grab1 isPort ((a2 :: g2t) ++ rest) = some (a2 :: g2t, rest) := by
      apply (grab1_eq_some _ _ _ _).mpr
      exact ⟨by simp, hg2, rfl, hrest⟩
    simp only [List.cons_append] at hc h1 h2 h3 h4
    simp [matchAt, hc, h1, h2, h3, h4]

lemma orO_assoc (a b c : Option (List Char)) :
    orO (orO a b) c = orO a (orO b c) := by
  cases a <;> simp [orO]

lemma orO_none_right (a : Option (List Char)) : orO a none = a := by
  cases a <;> simp [orO]

lemma dictLookup_dictInsert (m : List (List Char × List Char))
    (k v k' : List Char) :
    dictLookup (dictInsert m k v) k' =
      if k = k' then some v else dictLookup m k' := by
  induction m with
  | nil => simp [dictInsert, dictLookup]
  | cons p rest ih =>
    obtain ⟨ka, va⟩ := p
    by_cases h : ka = k
    · subst h
      by_cases h2 : ka = k' <;> simp [dictInsert, dictLookup, h2]
    · by_cases h3 : ka = k'
      · subst h3
        have : ¬k = ka := fun hx => h hx.symm
        simp [dictInsert, dictLookup, h, this]
      · simp [dictInsert, dictLookup, h, h3, ih]

lemma insAll_lookup (l : List (List Char × List Char)) :
    ∀ (m : List (List Char × List Char)) (k : List Char),
      dictLookup (insAll m l) k = orO (lastVal l k) (dictLookup m k) := by
  induction l with
  | nil => intro m k; simp [insAll, lastVal, orO]
  | cons p rest ih =>
    intro m k
    obtain ⟨kp, vp⟩ := p
    have step : insAll m ((kp, vp) :: rest) = insAll (dictInsert m kp vp) rest := by
      simp [insAll]
    rw [step, ih]
    cases hl : lastVal rest k with
    | some w => simp [lastVal, hl, orO]
    | none =>
      by_cases hk : kp = k
      · subst hk
        simp [lastVal, hl, orO, dictLookup_dictInsert]
      · simp [lastVal, hl, orO, dictLookup_dictInsert, hk]

lemma lastVal_append (a b : List (List Char × List Char)) (k : List Char) :
    lastVal (a ++ b) k = orO (lastVal b k) (lastVal a k) := by
  induction a with
  | nil => simp [lastVal, orO_none_right]
  | cons p a ih =>
    obtain ⟨kp, vp⟩ := p
    cases hb : lastVal b k with
    | some w =>
      have : lastVal (a ++ b) k = some w := by
        rw [ih, hb]; simp [orO]
      simp [lastVal, this, hb, orO]
    | none =>
      have : lastVal (a ++ b) k = lastVal a k := by
        rw [ih, hb]; simp [orO]
      simp [lastVal, this, hb, orO]

lemma scanPages_foldl_lookup (kw : List Char) :
    ∀ (pages : List (List Char)) (m : List (List Char × List Char))
      (k : List Char),
      dictLookup (pages.foldl (fun m page => insAll m (finditer kw page)) m) k =
        orO (lastVal (pages.flatMap (finditer kw)) k) (dictLookup m k) := by
  intro pages
  induction pages with
  | nil => intro m k; simp [lastVal, orO]
  | cons pg rest ih =>
    intro m k
    simp only [List.foldl_cons, List.flatMap_cons]
    rw [ih, insAll_lookup, lastVal_append, orO_assoc]

lemma scanPages_lookup (kw : List Char) (pages : List (List Char))
    (k : List Char) :
    dictLookup (scanPages kw pages) k = lastVal (allMatches kw pages) k := by
  rw [scanPages, allMatches, scanPages_foldl_lookup]
  simp [dictLookup, orO_none_right]

lemma mem_dictInsert (m : List (List Char × List Char)) (k v : List Char)
    (p : List Char × List Char) (h : p ∈ dictInsert m k v) :
    p = (k, v) ∨ p ∈ m := by
  induction m with
  | nil => simp [dictInsert] at h; simp [h]
  | cons q rest ih =>
    obtain ⟨kq, vq⟩ := q
    by_cases hk : kq = k
    · subst hk
      simp [dictInsert] at h
      rcases h with h | h
      · exact Or.inl (by simp [h])
      · exact Or.inr (by simp [h])
    · simp [dictInsert, hk] at h
      rcases h with h | h
      · exact Or.inr (by simp [h])
      · rcases ih h with h2 | h2
        · exact Or.inl h2
        · exact Or.inr (by simp [h2])

lemma mem_insAll (l : List (List Char × List Char)) :
    ∀ (m : List (List Char × List Char)) (p : List Char × List Char),
      p ∈ insAll m l → p ∈ l ∨ p ∈ m := by
  induction l with
  | nil => intro m p h; exact Or.inr (by simpa [insAll] using h)
  | cons q rest ih =>
    intro m p h
    have step : insAll m (q :: rest) = insAll (dictInsert m q.1 q.2) rest := by
      simp [insAll]
    rw [step] at h
    rcases ih _ p h with h2 | h2
    · exact Or.inl (by simp [h2])
    · rcases mem_dictInsert _ _ _ _ h2 with h3 | h3
      · exact Or.inl (by simp [h3])
      · exact Or.inr h3

lemma mem_scanPages_foldl (kw : List Char) :
    ∀ (pages : List (List Char)) (m : List (List Char × List Char))
      (p : List Char × List Char),
      p ∈ pages.foldl (fun m page => insAll m (finditer kw page)) m →
        (∃ page ∈ pages, p ∈ finditer kw page) ∨ p ∈ m := by
  intro pages
  induction pages with
  | nil => intro m p h; exact Or.inr (by simpa using h)
  | cons pg rest ih =>
    intro m p h
    simp only [List.foldl_cons] at h
    rcases ih _ p h with h2 | h2
    · obtain ⟨page, hpage, hp⟩ := h2
      exact Or.inl ⟨page, by simp [hpage], hp⟩
    · rcases mem_insAll _ _ _ h2 with h3 | h3
      · exact Or.inl ⟨pg, by simp, h3⟩
      · exact Or.inr h3

lemma mem_scanPages (kw : List Char) (pages : List (List Char))
    (p : List Char × List Char) (h : p ∈ scanPages kw pages) :
    ∃ page ∈ pages, p ∈ finditer kw page := by
  rcases mem_scanPages_foldl kw pages [] p h with h2 | h2
  · exact h2
  · simp at h2

lemma flatMap_lines (m : List (List Char × List Char)) :
    (m.flatMap fun p => fileLine p.1 p.2 ++ ['\n']) =
      unlines (m.map fun p => fileLine p.1 p.2) := by
  induction m with
  | nil => simp [unlines]
  | cons p rest ih => simp [unlines, ih]

/-- C1: for every text, the Order pattern
`Ordem\s+([A-Za-z]+)\s+([a-záéíóúãõç]+)` matches starting at a position
exactly when the text there is the literal keyword `Ordem`, then
whitespace, then a nonempty group of ASCII letters (the Latin name,
group 1), then whitespace, then a nonempty group of lowercase letters
including the Portuguese accented characters (the Portuguese name,
group 2); the Family pattern is identical with the literal `Família`;
matching is case-sensitive on the keyword, so
`ordem Primates primatas` has no match while
`Ordem Primates primatas` yields the captures (Primates, primatas). -/
theorem C1_pattern_structure :
    (∀ s g1 g2 rest : List Char,
      matchAt ordemKw s = some (g1, g2, rest) ↔
        GreedyDecomp ("Ordem".data) s g1 g2 rest)
    ∧ (∀ s g1 g2 rest : List Char,
      matchAt familiaKw s = some (g1, g2, rest) ↔
        GreedyDecomp ("Família".data) s g1 g2 rest)
    ∧ finditer ordemKw ("ordem Primates primatas".data) = []
    ∧ finditer ordemKw ("Ordem Primates primatas".data) =
        [("Primates".data, "primatas".data)] :=
  ⟨fun s g1 g2 rest => matchAt_eq_some ("Ordem".data) s g1 g2 rest,
   fun s g1 g2 rest => matchAt_eq_some ("Família".data) s g1 g2 rest,
   by decide, by decide⟩

/-- C2: for every document, each key of the final map is bound to the
Portuguese name of the last match with that Latin name in
page-then-match order (`lastVal` of the concatenated match stream); in
particular `Ordem Aves aves` on page 1 and `Ordem Aves pássaros` on
page 3 yield the single entry Aves → pássaros. -/
theorem C2_last_match_wins :
    (∀ (pages : List (List Char)) (k : List Char),
      dictLookup (ordensMap pages) k = lastVal (allMatches ordemKw pages) k)
    ∧ (∀ (pages : List (List Char)) (k : List Char),
      dictLookup (familiasMap pages) k = lastVal (allMatches familiaKw pages) k)
    ∧ ordensMap ["Ordem Aves aves".data, "page two".data,
        "Ordem Aves pássaros".data] = [("Aves".data, "pássaros".data)] :=
  ⟨fun pages k => scanPages_lookup _ pages k,
   fun pages k => scanPages_lookup _ pages k,
   by decide⟩

/-- C3: the output file is exactly the newline-terminated lines: the
header `Ordens encontradas:`, one `LatinName: PortugueseName` line per
order entry in map order, a blank line, the header
`Famílias encontradas:`, and one such line per family entry; with both
maps empty the file is exactly the two headers separated by the blank
line, and the family map Felidae → felídeos renders the data line
`Felidae: felídeos` under the family header. -/
theorem C3_output_layout :
    (∀ o f : List (List Char × List Char),
      renderOutput o f =
        unlines ((("Ordens encontradas:".data) :: o.map fun p => fileLine p.1 p.2)
          ++ ([] :: ("Famílias encontradas:".data) ::
            f.map fun p => fileLine p.1 p.2)))
    ∧ renderOutput [] [] =
        ("Ordens encontradas:\n\nFamílias encontradas:\n".data)
    ∧ renderOutput [] [("Felidae".data, "felídeos".data)] =
        ("Ordens encontradas:\n\nFamílias encontradas:\nFelidae: felídeos\n".data) := by
  refine ⟨?_, by decide, by decide⟩
  intro o f
  have e1 : ("Ordens encontradas:\n".data : List Char) =
      "Ordens encontradas:".data ++ ['\n'] := by decide
  have e2 : ("\nFamílias encontradas:\n".data : List Char) =
      '\n' :: ("Famílias encontradas:".data ++ ['\n']) := by decide
  rw [renderOutput, flatMap_lines, flatMap_lines, e1, e2]
  simp [unlines, List.flatMap_append, List.flatMap_cons, List.append_assoc]

/-- C4: every entry (key, value) of either final map is one of the
(group 1, group 2) capture pairs of the respective pattern on some page
of the document, with the value exactly as captured (no trimming or
normalization). -/
theorem C4_entries_come_from_matches :
    ∀ (pages : List (List Char)) (k v : List Char),
      ((k, v) ∈ ordensMap pages →
        ∃ page ∈ pages, (k, v) ∈ finditer ordemKw page)
      ∧ ((k, v) ∈ familiasMap pages →
        ∃ page ∈ pages, (k, v) ∈ finditer familiaKw page) :=
  fun _ _ _ =>
    ⟨fun h => mem_scanPages _ _ _ h, fun h => mem_scanPages _ _ _ h⟩

/-- Witness for C4 at the one-page document
`Ordem Aves aves Família Felidae felídeos`. -/
theorem C4_entries_come_from_matches_witness :
    (∃ page ∈ (["Ordem Aves aves Família Felidae felídeos".data] :
        List (List Char)),
      ("Aves".data, "aves".data) ∈ finditer ordemKw page)
    ∧ (∃ page ∈ (["Ordem Aves aves Família Felidae felídeos".data] :
        List (List Char)),
      ("Felidae".data, "felídeos".data) ∈ finditer familiaKw page) :=
  ⟨(C4_entries_come_from_matches
      ["Ordem Aves aves Família Felidae felídeos".data]
      ("Aves".data) ("aves".data)).1 (by decide),
   (C4_entries_come_from_matches
      ["Ordem Aves aves Família Felidae felídeos".data]
      ("Felidae".data) ("felídeos".data)).2 (by decide)⟩

/-- C5: when `fitz.open` raises `FileNotFoundError`, the program exits
with code 1, its only output is the Portuguese error message ending in
the offending path, and the output file is neither created nor
modified (`written = none`); the result does not depend on the
write-stage environment, so the scan and write stages are never
reached. -/
theorem C5_missing_file_behaviour :
    ∀ (prog path : List Char) (rest : List (List Char)) (writeOk : Bool)
      (werr : List Char) (po : Option (List Char)),
      runProgram (prog :: path :: rest) .notFound writeOk werr po =
        ⟨1, ["Erro: Arquivo não encontrado no caminho: ".data ++ path], none⟩ :=
  fun _ _ _ _ _ _ => rfl

/-- C6: with no path argument (argv is just the program name, or
empty), the program prints the Portuguese usage message, exits with
code 1, and writes nothing; the result does not depend on the document
at all, so this happens before any document is opened. -/
theorem C6_missing_argument_usage :
    ∀ (prog : List Char) (openRes : OpenResult) (writeOk : Bool)
      (werr : List Char) (po : Option (List Char)),
      runProgram [prog] openRes writeOk werr po =
        ⟨1, ["Uso: ./processar_pdf.py <caminho_do_arquivo_pdf>".data], none⟩
      ∧ runProgram [] openRes writeOk werr po =
        ⟨1, ["Uso: ./processar_pdf.py <caminho_do_arquivo_pdf>".data], none⟩ :=
  fun _ _ _ _ _ => ⟨rfl, rfl⟩

/-- C7: when the output-file write fails, the failure message is
printed, and every entry of both maps is still echoed to standard
output (console output as fallback delivery channel), so the scan
results are not lost. -/
theorem C7_write_failure_echoes_results :
    ∀ (prog path : List Char) (rest : List (List Char))
      (pages : List (List Char)) (werr : List Char)
      (po : Option (List Char)) (k v : List Char),
      writeFailMsg werr ∈
        (runProgram (prog :: path :: rest) (.ok pages) false werr po).stdout
      ∧ ((k, v) ∈ ordensMap pages →
          fileLine k v ∈
            (runProgram (prog :: path :: rest) (.ok pages) false werr po).stdout)
      ∧ ((k, v) ∈ familiasMap pages →
          fileLine k v ∈
            (runProgram (prog :: path :: rest) (.ok pages) false werr po).stdout) := by
  intro prog path rest pages werr po k v
  refine ⟨?_, ?_, ?_⟩
  · simp [runProgram]
  · intro h
    simp only [runProgram, echoLines, List.mem_cons, List.mem_append,
      List.mem_map]
    exact Or.inr (Or.inl (Or.inl (Or.inl (Or.inr ⟨(k, v), h, rfl⟩))))
  · intro h
    simp only [runProgram, echoLines, List.mem_cons, List.mem_append,
      List.mem_map]
    exact Or.inr (Or.inl (Or.inr ⟨(k, v), h, rfl⟩))

/-- Witness for C7: a failed write on the one-page document
`Ordem Aves aves Família Felidae felídeos` still echoes both entries. -/
theorem C7_write_failure_echoes_results_witness :
    (fileLine ("Aves".data) ("aves".data) ∈
      (runProgram ["p".data, "x.pdf".data]
        (.ok ["Ordem Aves aves Família Felidae felídeos".data])
        false ("disk full".data) none).stdout)
    ∧ (fileLine ("Felidae".data) ("felídeos".data) ∈
      (runProgram ["p".data, "x.pdf".data]
        (.ok ["Ordem Aves aves Família Felidae felídeos".data])
        false ("disk full".data) none).stdout) :=
  ⟨(C7_write_failure_echoes_results ("p".data) ("x.pdf".data) []
      ["Ordem Aves aves Família Felidae felídeos".data]
      ("disk full".data) none ("Aves".data) ("aves".data)).2.1 (by decide),
   (C7_write_failure_echoes_results ("p".data) ("x.pdf".data) []
      ["Ordem Aves aves Família Felidae felídeos".data]
      ("disk full".data) none ("Felidae".data) ("felídeos".data)).2.2
      (by decide)⟩

/-- C8: the written output file is a deterministic function of the
document's page texts alone: two successful runs on the same page
texts, whatever the rest of their environment, produce byte-identical
file contents, namely the rendering of the two scanned maps. -/
theorem C8_deterministic_output :
    ∀ (a1 b1 a2 b2 : List Char) (r1 r2 : List (List Char))
      (pages : List (List Char)) (w1 w2 : List Char)
      (p1 p2 : Option (List Char)),
      (runProgram (a1 :: b1 :: r1) (.ok pages) true w1 p1).written =
        (runProgram (a2 :: b2 :: r2) (.ok pages) true w2 p2).written
      ∧ (runProgram (a1 :: b1 :: r1) (.ok pages) true w1 p1).written =
          some (renderOutput (ordensMap pages) (familiasMap pages)) :=
  fun _ _ _ _ _ _ _ _ _ _ _ => ⟨rfl, rfl⟩

/-- C9 as stated is false: in `Subordem Aves aves` the keyword `Ordem`
does not occur, because the keyword match is case-sensitive and
`Subordem` contains only the lowercase `ordem`; the Order pattern finds
no match there and no entry is added to the Order map. -/
theorem C9_counterexample :
    finditer ordemKw ("Subordem Aves aves".data) = []
    ∧ ordensMap ["Subordem Aves aves".data] = [] := by decide

/-- C9 (amended): the keyword is not anchored at a word boundary, so
when `Ordem` occurs, with its capital O, only as the suffix of a longer
word — e.g. the text `SubOrdem Aves aves` — the Order pattern still
matches and the entry Aves → aves is added to the Order map; the same
holds for `Família`, e.g. in `SubFamília Felidae felídeos`. -/
theorem C9_no_word_boundary_amended :
    finditer ordemKw ("SubOrdem Aves aves".data) =
      [("Aves".data, "aves".data)]
    ∧ ordensMap ["SubOrdem Aves aves".data] = [("Aves".data, "aves".data)]
    ∧ finditer familiaKw ("SubFamília Felidae felídeos".data) =
      [("Felidae".data, "felídeos".data)]
    ∧ familiasMap ["SubFamília Felidae felídeos".data] =
      [("Felidae".data, "felídeos".data)] := by decide

/-- C10: a failed output-file write still ends the run with exit code
0 (the script prints the error and falls through to the echo and the
completion message); exit code 1 occurs exactly on the
missing-argument and document-open failure paths. -/
theorem C10_write_failure_exit_code_zero :
    ∀ (prog path : List Char) (rest : List (List Char))
      (pages : List (List Char)) (werr e : List Char)
      (po : Option (List Char)) (openAny : OpenResult) (wOk : Bool),
      (runProgram (prog :: path :: rest) (.ok pages) false werr po).exitCode = 0
      ∧ (runProgram [prog] openAny wOk werr po).exitCode = 1
      ∧ (runProgram (prog :: path :: rest) .notFound wOk werr po).exitCode = 1
      ∧ (runProgram (prog :: path :: rest) (.failed e) wOk werr po).exitCode = 1 :=
  fun _ _ _ _ _ _ _ _ _ => ⟨rfl, rfl, rfl, rfl⟩

end FlickrExtract
